import Mathlib

/-
Verification of the core job-orchestration logic of the
EnzymeFunctionInitiative/job_manager repository.

The Python sources are shallowly embedded:
  * Python values that can appear in job columns, parameter dictionaries and
    update dictionaries are modelled by the inductive type `Val`
    (None / bool / int / str / Status flag / datetime / list of strings).
  * Python `dict`s are modelled as association lists (`List (String × α)`)
    with insertion-order semantics: assignment to a present key overwrites
    in place, assignment to an absent key appends (`dset`), `dict.update`
    folds assignments (`dupdate`), `dict.get` is `dget`, `dict.pop` is `dpop`.
  * `Status` (a Python `enum.Flag`) is a natural-number bitmask; the named
    members and their lowercase string forms follow app/job_enums.py.
  * A job (SQLAlchemy ORM row, app/models.py) is modelled by `JobModel`:
    its mapper columns with their `info` metadata tags (`ColInfo`), a value
    assignment for the column attributes, and the class-level attributes
    (`pipeline`, `import_mode`, membership in the `FilenameParameters` mixin).
  * External effects (filesystem contents, connector responses, the current
    time) are passed as explicit arguments; connector invocations performed
    by the handler are recorded in a returned trace (`ConnOp`).
-/

/-- A Python runtime value as used in job columns and handler dictionaries. -/
inductive Val where
  | null : Val
  | vBool : Bool → Val
  | vInt : Int → Val
  | vStr : String → Val
  | vStatus : Nat → Val
  | vTime : Nat → Val
  | vList : List String → Val
deriving DecidableEq, Repr

/-- Python truthiness (`if val:`) for the embedded values. -/
def Val.truthy : Val → Bool
  | .null => false
  | .vBool b => b
  | .vInt n => n != 0
  | .vStr s => s != ""
  | .vStatus s => s != 0
  | .vTime _ => true
  | .vList l => l != []

/-- The lowercase string name of a named Status flag value, as produced by
`Status.__str__` in app/job_enums.py (`self.name.lower()`). -/
def statusName (s : Nat) : String :=
  if s = 1 then "new"
  else if s = 2 then "running"
  else if s = 4 then "finished"
  else if s = 8 then "failed"
  else if s = 16 then "cancelled"
  else if s = 32 then "archived"
  else if s = 64 then "unknown"
  else if s = 3 then "incomplete"
  else if s = 60 then "completed"
  else if s = 15 then "current"
  else if s = 47 then "all"
  else ""

/-- Python `f"{val}"` / `str(val)` rendering for the embedded values. -/
def Val.pyStr : Val → String
  | .null => "None"
  | .vBool b => if b then "True" else "False"
  | .vInt n => toString n
  | .vStr s => s
  | .vStatus s => statusName s
  | .vTime t => toString t
  | .vList _ => "[...]"

/-- `d[k] = v` on a Python dict: overwrite in place when the key is present,
append otherwise. -/
def dset {α : Type} : List (String × α) → String → α → List (String × α)
  | [], k, v => [(k, v)]
  | p :: rest, k, v =>
      if p.1 = k then (k, v) :: rest else p :: dset rest k v

/-- `d.get(k)` on a Python dict (first — and only — binding of the key). -/
def dget {α : Type} : List (String × α) → String → Option α
  | [], _ => Option.none
  | p :: rest, k => if p.1 = k then some p.2 else dget rest k

/-- `d.pop(k)` on a Python dict (the removal effect). -/
def dpop {α : Type} : List (String × α) → String → List (String × α)
  | [], _ => []
  | p :: rest, k => if p.1 = k then dpop rest k else p :: dpop rest k

/-- `d.update(d2)` on Python dicts: fold the assignments of `d2` in order. -/
def dupdate {α : Type} (d d2 : List (String × α)) : List (String × α) :=
  d2.foldl (fun acc p => dset acc p.1 p.2) d

/-- The value the last binding of `k` in an update sequence carries (the one a
Python `for key, value in d.items(): ...` loop applies last). For a genuine
dict the key is bound once, so this agrees with `dget`. -/
def dgetLast {α : Type} (d : List (String × α)) (k : String) : Option α :=
  dget d.reverse k

theorem dget_dset_self {α : Type} (d : List (String × α)) (k : String) (v : α) :
    dget (dset d k v) k = some v := by
  induction d with
  | nil => simp [dset, dget]
  | cons p rest ih =>
      by_cases h : p.1 = k
      · simp [dset, h, dget]
      · simp [dset, h, dget, ih]

theorem dget_dset_ne {α : Type} (d : List (String × α)) (k k' : String) (v : α)
    (h : k' ≠ k) : dget (dset d k v) k' = dget d k' := by
  induction d with
  | nil => simp [dset, dget, Ne.symm h]
  | cons p rest ih =>
      by_cases hp : p.1 = k
      · subst hp
        simp [dset, dget, Ne.symm h]
      · by_cases hp' : p.1 = k'
        · simp [dset, hp, dget, hp', h]
        · simp [dset, hp, dget, hp', ih]

theorem dget_dpop_self {α : Type} (d : List (String × α)) (k : String) :
    dget (dpop d k) k = Option.none := by
  induction d with
  | nil => simp [dpop, dget]
  | cons p rest ih =>
      by_cases hp : p.1 = k
      · simp [dpop, hp, ih]
      · simp [dpop, hp, dget, ih]

theorem dget_dpop_ne {α : Type} (d : List (String × α)) (k k' : String)
    (h : k' ≠ k) : dget (dpop d k) k' = dget d k' := by
  induction d with
  | nil => simp [dpop, dget]
  | cons p rest ih =>
      by_cases hp : p.1 = k
      · subst hp
        simp [dpop, dget, Ne.symm h, ih]
      · by_cases hp' : p.1 = k'
        · simp [dpop, hp, dget, hp', h]
        · simp [dpop, hp, dget, hp', ih]

theorem dget_dupdate {α : Type} (d d2 : List (String × α)) (k : String) :
    dget (dupdate d d2) k =
      match dgetLast d2 k with
      | some v => some v
      | Option.none => dget d k := by
  induction d2 using List.reverseRecOn with
  | nil => simp [dupdate, dgetLast, dget]
  | append_singleton l p ih =>
      by_cases hp : p.1 = k
      · simp [dupdate, List.foldl_append, dgetLast, dget, hp, dget_dset_self]
      · have h2 : k ≠ p.1 := fun hh => hp hh.symm
        simp only [dupdate, List.foldl_append, List.foldl_cons, List.foldl_nil]
        rw [dget_dset_ne _ _ _ _ h2]
        simpa [dgetLast, dget, hp] using ih

/-
Status flags (app/job_enums.py). A value of the Python `Status` Flag is a
bitmask over seven primitive bits; the named compound members are the unions
declared in the class body.
-/

def sNEW : Nat := 1
def sRUNNING : Nat := 2
def sFINISHED : Nat := 4
def sFAILED : Nat := 8
def sCANCELLED : Nat := 16
def sARCHIVED : Nat := 32
def sUNKNOWN : Nat := 64
def sINCOMPLETE : Nat := 3
def sCOMPLETED : Nat := 60
def sCURRENT : Nat := 15
def sALL : Nat := 47

/-- Python `Flag.__contains__`: `f in s` iff `f.value & s.value == f.value`. -/
def memFlag (f s : Nat) : Bool := Nat.land f s == f

/-- The members of the `Status` class in declaration order — Python (≤3.10)
class iteration (`for flag in Status`) yields the named members, compound
unions included, in definition order. -/
def statusMembers : List Nat :=
  [sNEW, sRUNNING, sFINISHED, sFAILED, sCANCELLED, sARCHIVED, sUNKNOWN,
   sINCOMPLETE, sCOMPLETED, sCURRENT, sALL]

/-- The seven single-bit (primitive) status flags. -/
def primFlags : List Nat :=
  [sNEW, sRUNNING, sFINISHED, sFAILED, sCANCELLED, sARCHIVED, sUNKNOWN]

/-- `[flag.__str__() for flag in Status if flag in status]` in
`DatabaseHandler.fetch_jobs` (app/database.py). -/
def statusStrings (s : Nat) : List String :=
  (statusMembers.filter (fun m => memFlag m s)).map statusName

/-
The job data model (app/models.py). A mapper column together with its
`info` metadata dictionary.
-/

structure ColInfo where
  name : String
  isParameter : Bool
  parameterKey : Option String
  isUpdatable : Bool
  resultKey : Option String
  isFilter : Bool
deriving DecidableEq, Repr

/-- A column with no info tags. -/
def col0 (n : String) : ColInfo := ColInfo.mk n false Option.none false Option.none false
/-- A column tagged IS_PARAMETER. -/
def colP (n : String) : ColInfo := ColInfo.mk n true Option.none false Option.none false
/-- A column tagged IS_PARAMETER with a PARAMETER_KEY. -/
def colPK (n k : String) : ColInfo := ColInfo.mk n true (some k) false Option.none false
/-- A column tagged IS_UPDATABLE. -/
def colU (n : String) : ColInfo := ColInfo.mk n false Option.none true Option.none false
/-- A column tagged IS_UPDATABLE with a RESULT_KEY. -/
def colUR (n k : String) : ColInfo := ColInfo.mk n false Option.none true (some k) false
/-- A column tagged IS_PARAMETER and IS_FILTER. -/
def colPF (n : String) : ColInfo := ColInfo.mk n true Option.none false Option.none true

/-- The Pipeline enumeration (app/job_enums.py). -/
inductive PipelineT where
  | est | generatessn | colorssn | gnt | gnd
  | neighborhoodconn | convergenceratio | clusteranalysis | cgfp | taxonomy
deriving DecidableEq, Repr

/-- The ImportMode enumeration (app/job_enums.py). -/
inductive ImportModeT where
  | accession | blast | family | fasta | view | identify | quantify
deriving DecidableEq, Repr

/-- `str(import_mode)` (`BaseEnum.__str__`: the lowercased member name). -/
def importModeName : ImportModeT → String
  | .accession => "accession"
  | .blast => "blast"
  | .family => "family"
  | .fasta => "fasta"
  | .view => "view"
  | .identify => "identify"
  | .quantify => "quantify"

/-- A Job ORM instance: its mapper columns (with metadata), the current value
of each column attribute, and the class-level attributes used by the handler
(`pipeline`, the optional `import_mode`, and whether the variant includes the
`FilenameParameters` mixin, i.e. `isinstance(job, FilenameParameters)`). -/
structure JobModel where
  id : Int
  cols : List ColInfo
  vals : String → Val
  pipeline : PipelineT
  hasImportMode : Bool
  importMode : ImportModeT
  hasFilename : Bool

/-- `Job.get_parameters_dict` (app/models.py): a dict comprehension over the
mapper columns tagged IS_PARAMETER, keyed by PARAMETER_KEY when present and
the column name otherwise. -/
def get_parameters_dict (j : JobModel) : List (String × Val) :=
  j.cols.foldl
    (fun acc c =>
      if c.isParameter then dset acc (c.parameterKey.getD c.name) (j.vals c.name)
      else acc)
    []

/-- `Job.get_filter_parameters` (app/models.py): names of columns tagged
IS_FILTER, in column order. -/
def get_filter_parameters (j : JobModel) : List String :=
  (j.cols.filter (fun c => c.isFilter)).map (fun c => c.name)

/-- `Job.get_updatable_attrs` (app/models.py): names of columns tagged
IS_UPDATABLE, in column order. -/
def get_updatable_attrs (j : JobModel) : List String :=
  (j.cols.filter (fun c => c.isUpdatable)).map (fun c => c.name)

/-- The dict-comprehension step of `Job.get_result_key_mapping`: for each
IS_UPDATABLE column add the binding RESULT_KEY (or column name) ↦ name. -/
def resultMapFold (d : List (String × String)) :
    List ColInfo → List (String × String)
  | [] => d
  | c :: cs =>
      resultMapFold
        (if c.isUpdatable then dset d (c.resultKey.getD c.name) c.name else d)
        cs

/-- `Job.get_result_key_mapping` (app/models.py): result-file key ↦ column
name, for every column tagged IS_UPDATABLE. -/
def get_result_key_mapping (j : JobModel) : List (String × String) :=
  resultMapFold [] j.cols

/-
Configuration constants (config/settings.py) and the handler's key names
(app/job_handler.py).
-/

def STATUS_KEY : String := "status"
def JOBID_KEY : String := "schedulerJobId"
def TIME_STARTED_KEY : String := "timeStarted"
def TIME_COMPLETED_KEY : String := "timeCompleted"
def FILTER_KEY : String := "filter"
def IMPORT_MODE_KEY : String := "import_mode"
def FIN_OUTPUT_DIR_KEY : String := "final_output_dir"

def REMOTE_JOB_DIRECTORY : String := "/data/jobs"

/-- `settings.NEXTFLOW_PARAMS` (config/settings.py), in declaration order. -/
def NEXTFLOW_PARAMS : List (String × Val) :=
  [("efi_config", Val.vStr "/path/to/efi.config"),
   ("efi_db", Val.vStr "efi_202503"),
   ("fasta_db", Val.vStr "/path/to/fasta/database/combined.fasta"),
   ("duckdb_memory_limit", Val.vStr "8GB"),
   ("duckdb_threads", Val.vInt 1),
   ("num_fasta_shards", Val.vInt 128),
   ("num_accession_shards", Val.vInt 16),
   ("blast_num_matches", Val.vInt 250),
   ("multiplex", Val.vBool false),
   ("filter", Val.null),
   ("sequence_version", Val.vStr "uniprot")]

/-
The Job Store (app/database.py).
-/

/-- The outcome of `DatabaseHandler.update_job`: the job's column values
afterwards, whether `session.commit()` ran, and whether the dry-run
would-be-update log line was emitted. -/
structure UpdateResult where
  vals : String → Val
  committed : Bool
  loggedDryRun : Bool

/-- The `setattr` loop of `DatabaseHandler.update_job`: each update key that
names an updatable column overwrites that attribute; other keys are skipped. -/
def applyUpdates (updatable : List String) :
    (String → Val) → List (String × Val) → (String → Val)
  | vals, [] => vals
  | vals, p :: rest =>
      applyUpdates updatable
        (if p.1 ∈ updatable then (fun n => if n = p.1 then p.2 else vals n)
         else vals)
        rest

/-- `DatabaseHandler.update_job` (app/database.py): in dry-run mode log and
return without writing; on an empty update dict return without committing;
otherwise apply the updatable keys and commit. -/
def update_job (dry : Bool) (job : JobModel) (upd : List (String × Val)) :
    UpdateResult :=
  if dry then
    UpdateResult.mk job.vals false true
  else if upd = [] then
    UpdateResult.mk job.vals false false
  else
    UpdateResult.mk (applyUpdates (get_updatable_attrs job) job.vals upd) true false

/-- A row of the Job table as seen by `fetch_jobs`: its id and the status it
was stored with. The stored string form is `statusName status`
(`FlagEnumType.process_bind_param` persists `value.__str__()`). -/
structure JobRow where
  id : Int
  status : Nat
deriving DecidableEq, Repr

/-- Insert a row into a list sorted by ascending id. -/
def insertById (r : JobRow) : List JobRow → List JobRow
  | [] => [r]
  | x :: xs => if r.id ≤ x.id then r :: x :: xs else x :: insertById r xs

/-- `ORDER BY id ASC`: sort rows by ascending id (stable insertion sort). -/
def sortById : List JobRow → List JobRow
  | [] => []
  | x :: xs => insertById x (sortById xs)

/-- `DatabaseHandler.fetch_jobs` (app/database.py): select the rows whose
stored status string is among `statusStrings status`, ordered by ascending
id. -/
def fetch_jobs (db : List JobRow) (status : Nat) : List JobRow :=
  sortById
    (db.filter (fun r => (statusStrings status).contains (statusName r.status)))

/-
The Results Parser (app/results_parser.py).
-/

/-- `ResultsParser._parse_stats_json`: rebuild the parsed dict, translating
each key through the column mapping when a mapping exists and passing it
through unchanged otherwise. -/
def parse_stats_json (mapping : List (String × String))
    (content : List (String × Val)) : List (String × Val) :=
  content.foldl (fun acc p => dset acc ((dget mapping p.1).getD p.1) p.2) []

/-- `ResultsParser.parse_results`: when the job's `stats.json` exists (here:
`stats = some content`) parse it under the job's result-key mapping;
otherwise return the empty dict. -/
def parse_results (j : JobModel) (stats : Option (List (String × Val))) :
    List (String × Val) :=
  match stats with
  | some content => parse_stats_json (get_result_key_mapping j) content
  | Option.none => []

/-
The Job Lifecycle Engine (app/job_handler.py). Connector responses and the
filesystem are oracle arguments; the connector calls the handler makes are
returned as a trace.
-/

/-- A connector operation invoked by the handler. -/
inductive ConnOp where
  | prepare | submit | poll | retrieve
deriving DecidableEq, Repr

/-- `JobHandler._create_parameter_dict`, before the EST filter folding: the
job's parameter dict, updated with `settings.NEXTFLOW_PARAMS`, then with
the final output directory, then (when the variant has an `import_mode`
class attribute) with the import mode string. -/
def base_parameter_dict (j : JobModel) : List (String × Val) :=
  let params := get_parameters_dict j
  let params := dupdate params NEXTFLOW_PARAMS
  let params :=
    dset params FIN_OUTPUT_DIR_KEY
      (Val.vStr (REMOTE_JOB_DIRECTORY ++ "/" ++ toString j.id))
  if j.hasImportMode then
    dset params IMPORT_MODE_KEY (Val.vStr (importModeName j.importMode))
  else params

/-- `params[FILTER_KEY].append(s)`: the in-place append to the list stored
under the `filter` key. -/
def fappend (ps : List (String × Val)) (s : String) : List (String × Val) :=
  ps.map (fun p =>
    if p.1 = FILTER_KEY then
      (p.1,
       match p.2 with
       | Val.vList l => Val.vList (l ++ [s])
       | w => w)
    else p)

/-- One iteration of the filter loop in `JobHandler._create_parameter_dict`:
read the column's current parameter value; when truthy, append
`"col=value"` to the `filter` list and pop the column's own key. -/
def filterStep (ps : List (String × Val)) (c : String) : List (String × Val) :=
  match dget ps c with
  | Option.none => ps
  | some v =>
      if v.truthy then dpop (fappend ps (c ++ "=" ++ v.pyStr)) c
      else ps

/-- The filter loop of `JobHandler._create_parameter_dict`. -/
def applyFilters (cols : List String) (ps : List (String × Val)) :
    List (String × Val) :=
  cols.foldl filterStep ps

/-- `JobHandler._create_parameter_dict` (app/job_handler.py). -/
def create_parameter_dict (j : JobModel) : List (String × Val) :=
  if j.pipeline = PipelineT.est then
    applyFilters (get_filter_parameters j)
      (dset (base_parameter_dict j) FILTER_KEY (Val.vList []))
  else base_parameter_dict j

/-- The input-file requirement check of `JobHandler.process_new_job`:
`isinstance(job, FilenameParameters) and job.jobFilename` (truthiness). -/
def needsInputFile (j : JobModel) : Bool :=
  j.hasFilename && (j.vals "jobFilename").truthy

/-- Truthiness of `prepare_job_environment`'s return value
(`if not cluster_params_path`). -/
def prepTruthy (prep : Option String) : Bool :=
  match prep with
  | some p => p != ""
  | Option.none => false

/-- Truthiness of `submit_job`'s return value (`if scheduler_job_id`). -/
def submTruthy (subm : Option Int) : Bool :=
  match subm with
  | some i => i != 0
  | Option.none => false

/-- `JobHandler.process_new_job` (app/job_handler.py). `fs` is the set of
file names present in `settings.LOCAL_INPUT_FILE_SOURCE_DIR`; `prep` and
`subm` are the connector's responses; `now` is `datetime.utcnow()`. Returns
the update dict together with the trace of connector calls made. -/
def process_new_job (fs : List String) (prep : Option String)
    (subm : Option Int) (now : Nat) (j : JobModel) :
    List (String × Val) × List ConnOp :=
  if needsInputFile j ∧ ¬ fs.contains (j.vals "jobFilename").pyStr then
    ([(STATUS_KEY, Val.vStatus sFAILED)], [])
  else if ¬ prepTruthy prep then
    ([(STATUS_KEY, Val.vStatus sFAILED)], [ConnOp.prepare])
  else if submTruthy subm then
    ([(STATUS_KEY, Val.vStatus sRUNNING),
      (JOBID_KEY, Val.vInt (subm.getD 0)),
      (TIME_STARTED_KEY, Val.vTime now)],
     [ConnOp.prepare, ConnOp.submit])
  else
    ([(STATUS_KEY, Val.vStatus sFAILED)], [ConnOp.prepare, ConnOp.submit])

/-- `JobHandler.process_running_job` (app/job_handler.py). `poll` is the
status flag returned by `connector.get_job_status`; `stats` is the content of
the job's `stats.json` (when present); `now` is `datetime.utcnow()`. -/
def process_running_job (poll : Nat) (stats : Option (List (String × Val)))
    (now : Nat) (j : JobModel) : List (String × Val) × List ConnOp :=
  if poll = sRUNNING then
    ([], [ConnOp.poll])
  else if poll = sFAILED then
    (dset (dset [] STATUS_KEY (Val.vStatus sFAILED))
       TIME_COMPLETED_KEY (Val.vTime now),
     [ConnOp.poll])
  else if poll = sFINISHED then
    (dset
       (dupdate (dset [] STATUS_KEY (Val.vStatus sFINISHED))
         (parse_results j stats))
       TIME_COMPLETED_KEY (Val.vTime now),
     [ConnOp.poll, ConnOp.retrieve])
  else
    ([], [ConnOp.poll])

/-
Concrete column sets (app/models.py). `jobBaseCols` is the base `Job`
mapper's columns in declaration order; the ESTGenerateFamiliesJob variant
extends it with the columns of its mixins in base-class order
(ESTGenerateJob, DomainBoundariesParameters, ExcludeFragmentsParameters,
FilterByTaxonomyParameters, ProteinFamilyAdditionParameters).
-/

def jobBaseCols : List ColInfo :=
  [colPK "id" "job_id",
   col0 "uuid",
   col0 "user",
   colU "status",
   col0 "timeCreated",
   colU "timeStarted",
   colU "timeCompleted",
   colPK "efi_db_version" "efi_db",
   colP "jobName",
   col0 "parentJob_id",
   col0 "isPublic",
   col0 "isExample",
   colU "schedulerJobId",
   col0 "job_type"]

def estExtraCols : List ColInfo :=
  [colPK "allByAllBlastEValue" "blast_evalue",
   colUR "numComputedIds" "num_unique_ids",
   colUR "numImportedIds" "num_ids",
   colUR "outputConvergenceRatio" "convergence_ratio",
   colUR "numBlastEdges" "num_blast_edges",
   colP "domain",
   colP "domainRegion",
   colPF "excludeFragments",
   colUR "numFragmentFiltered" "num_filter_fragment",
   colPF "taxSearch",
   colPF "taxSearchName",
   colUR "numTaxonomyFiltered" "num_filter_taxonomy",
   colP "families",
   colP "sequence_version",
   colPF "fraction",
   colUR "numFamilyIds" "num_family",
   colUR "numFullFamilyIds" "num_full_family",
   colUR "numFamilyOverlapIds" "num_shared_ids",
   colUR "numFamilyUnirefOverlapIds" "num_shared_uniref_ids",
   colUR "numFractionFiltered" "num_filter_fraction"]

def estGenerateFamiliesCols : List ColInfo := jobBaseCols ++ estExtraCols

/-- An ESTGenerateFamiliesJob instance (pipeline EST, import mode FAMILY, not
a FilenameParameters variant) with the given id and column values. -/
def estFamiliesJob (i : Int) (vals : String → Val) : JobModel :=
  JobModel.mk i estGenerateFamiliesCols vals PipelineT.est true
    ImportModeT.family false

/-- All columns null except the stated one. -/
def oneVal (n : String) (v : Val) : String → Val :=
  fun m => if m = n then v else Val.null

/-
Helper lemmas about the embedded operations.
-/

theorem applyUpdates_skip (updatable : List String) (vals : String → Val)
    (upd : List (String × Val)) (k : String)
    (hk : k ∉ updatable) :
    applyUpdates updatable vals upd k = vals k := by
  induction upd generalizing vals with
  | nil => rfl
  | cons p rest ih =>
      show applyUpdates updatable _ rest k = vals k
      rw [ih]
      by_cases hp : p.1 ∈ updatable
      · have hne : k ≠ p.1 := fun he => hk (he ▸ hp)
        simp [hp, hne]
      · simp [hp]

theorem applyUpdates_append (updatable : List String) (vals : String → Val)
    (l1 l2 : List (String × Val)) :
    applyUpdates updatable vals (l1 ++ l2)
      = applyUpdates updatable (applyUpdates updatable vals l1) l2 := by
  induction l1 generalizing vals with
  | nil => rfl
  | cons p rest ih => simpa [applyUpdates] using ih _

theorem applyUpdates_apply (updatable : List String) (vals : String → Val)
    (upd : List (String × Val)) (k : String) (v : Val)
    (hk : k ∈ updatable) (hv : dgetLast upd k = some v) :
    applyUpdates updatable vals upd k = v := by
  induction upd using List.reverseRecOn generalizing vals with
  | nil => simp [dgetLast, dget] at hv
  | append_singleton l p ih =>
      rw [applyUpdates_append]
      by_cases hp : p.1 = k
      · have hv' : v = p.2 := by
          simp [dgetLast, List.reverse_append, dget, hp] at hv
          exact hv.symm
        subst hp
        simp [applyUpdates, hk, hv']
      · have hv' : dgetLast l k = some v := by
          simpa [dgetLast, List.reverse_append, dget, hp] using hv
        by_cases hup : p.1 ∈ updatable
        · simpa [applyUpdates, hup, Ne.symm hp] using ih vals hv'
        · simpa [applyUpdates, hup] using ih vals hv'

theorem resultMapFold_append (d : List (String × String))
    (l1 l2 : List ColInfo) :
    resultMapFold d (l1 ++ l2) = resultMapFold (resultMapFold d l1) l2 := by
  induction l1 generalizing d with
  | nil => rfl
  | cons c rest ih => simpa [resultMapFold] using ih _

theorem resultMapFold_preserve (cs : List ColInfo)
    (d : List (String × String)) (k : String)
    (h : ∀ c ∈ cs, c.isUpdatable = true → c.resultKey.getD c.name ≠ k) :
    dget (resultMapFold d cs) k = dget d k := by
  induction cs generalizing d with
  | nil => rfl
  | cons c rest ih =>
      show dget (resultMapFold _ rest) k = dget d k
      rw [ih _ (fun c' hc' => h c' (List.mem_cons_of_mem _ hc'))]
      by_cases hc : c.isUpdatable
      · rw [if_pos hc]
        exact dget_dset_ne _ _ _ _ (Ne.symm (h c (List.mem_cons_self _ _) hc))
      · rw [if_neg hc]

theorem dget_map_keyfix {f : (String × Val) → (String × Val)}
    (hf : ∀ p, (f p).1 = p.1) (ps : List (String × Val)) (k : String) :
    dget (ps.map f) k = (dget ps k).map (fun v => (f (k, v)).2) := by
  induction ps with
  | nil => rfl
  | cons p rest ih =>
      rcases p with ⟨a, b⟩
      by_cases hp : a = k
      · subst hp
        simp [dget, hf ⟨a, b⟩]
      · simp [dget, hf ⟨a, b⟩, hp, ih]

theorem fappend_keyfix (s : String) :
    ∀ p : String × Val,
      ((fun p : String × Val =>
        if p.1 = FILTER_KEY then
          (p.1,
           match p.2 with
           | Val.vList l => Val.vList (l ++ [s])
           | w => w)
        else p) p).1 = p.1 := by
  intro p
  by_cases hp : p.1 = FILTER_KEY <;> simp [hp]

theorem dget_fappend_self (ps : List (String × Val)) (s : String)
    (l : List String) (h : dget ps FILTER_KEY = some (Val.vList l)) :
    dget (fappend ps s) FILTER_KEY = some (Val.vList (l ++ [s])) := by
  rw [fappend, dget_map_keyfix (fappend_keyfix s), h]
  rfl

theorem dget_fappend_ne (ps : List (String × Val)) (s : String) (k : String)
    (h : k ≠ FILTER_KEY) : dget (fappend ps s) k = dget ps k := by
  rw [fappend, dget_map_keyfix (fappend_keyfix s)]
  cases hv : dget ps k
  · rfl
  · simp [h]

theorem mem_insertById (a r : JobRow) (l : List JobRow) :
    a ∈ insertById r l ↔ a = r ∨ a ∈ l := by
  induction l with
  | nil => simp [insertById]
  | cons x xs ih =>
      by_cases h : r.id ≤ x.id
      · simp [insertById, h]
      · simp [insertById, h, ih]
        tauto

theorem insertById_perm (r : JobRow) (l : List JobRow) :
    List.Perm (insertById r l) (r :: l) := by
  induction l with
  | nil => exact List.Perm.refl _
  | cons x xs ih =>
      by_cases h : r.id ≤ x.id
      · rw [insertById, if_pos h]
      · rw [insertById, if_neg h]
        exact List.Perm.trans (List.Perm.cons x ih) (List.Perm.swap r x xs)

theorem sortById_perm (l : List JobRow) : List.Perm (sortById l) l := by
  induction l with
  | nil => exact List.Perm.refl []
  | cons x xs ih =>
      exact List.Perm.trans (insertById_perm x (sortById xs))
        (List.Perm.cons x ih)

theorem sorted_insertById (r : JobRow) (l : List JobRow)
    (h : l.Pairwise (fun a b => a.id ≤ b.id)) :
    (insertById r l).Pairwise (fun a b => a.id ≤ b.id) := by
  induction l with
  | nil => simp [insertById]
  | cons x xs ih =>
      rcases List.pairwise_cons.mp h with ⟨hx, hxs⟩
      by_cases hle : r.id ≤ x.id
      · rw [insertById, if_pos hle]
        refine List.pairwise_cons.mpr ⟨?_, h⟩
        intro b hb
        rcases List.mem_cons.mp hb with hb | hb
        · subst hb
          exact hle
        · exact le_trans hle (hx b hb)
      · rw [insertById, if_neg hle]
        refine List.pairwise_cons.mpr ⟨?_, ih hxs⟩
        intro b hb
        rcases (mem_insertById b r xs).mp hb with hb | hb
        · subst hb
          exact le_of_lt (lt_of_not_le hle)
        · exact hx b hb

theorem sorted_sortById (l : List JobRow) :
    (sortById l).Pairwise (fun a b => a.id ≤ b.id) := by
  induction l with
  | nil => simp [sortById]
  | cons x xs ih => exact sorted_insertById x (sortById xs) ih

theorem statusName_inj_members :
    ∀ m ∈ statusMembers, ∀ p ∈ primFlags, statusName m = statusName p → m = p := by
  decide

theorem prim_sub_members : ∀ p ∈ primFlags, p ∈ statusMembers := by
  decide

theorem contains_statusStrings (p s : Nat) (hp : p ∈ primFlags) :
    (statusStrings s).contains (statusName p) = memFlag p s := by
  by_cases hm : memFlag p s = true
  · rw [hm]
    have hmem : statusName p ∈ statusStrings s :=
      List.mem_map_of_mem statusName
        (List.mem_filter.mpr ⟨prim_sub_members p hp, hm⟩)
    exact List.elem_iff.mpr hmem
  · have hm' : memFlag p s = false := by
      revert hm
      cases memFlag p s <;> simp
    rw [hm']
    by_contra hc
    have hc' : (statusStrings s).contains (statusName p) = true := by
      revert hc
      cases (statusStrings s).contains (statusName p) <;> simp
    have hmem : statusName p ∈ statusStrings s := List.elem_iff.mp hc'
    rcases List.mem_map.mp hmem with ⟨m, hmf, hname⟩
    rcases List.mem_filter.mp hmf with ⟨hmm, hmflag⟩
    have heq := statusName_inj_members m hmm p hp hname
    subst heq
    rw [hmflag] at hm'
    cases hm'

/-- The value under key `c` is present and truthy (`if val:` succeeds). -/
def truthyAt (ps : List (String × Val)) (c : String) : Bool :=
  match dget ps c with
  | some v => v.truthy
  | Option.none => false

/-- The `f"{col_name}={val}"` string built by the filter loop for key `c`. -/
def entryAt (ps : List (String × Val)) (c : String) : String :=
  match dget ps c with
  | some v => c ++ "=" ++ v.pyStr
  | Option.none => c

theorem applyFilters_spec (cols : List String) :
    ∀ (ps : List (String × Val)) (l : List String),
      cols.Nodup → (∀ c ∈ cols, c ≠ FILTER_KEY) →
      dget ps FILTER_KEY = some (Val.vList l) →
      dget (applyFilters cols ps) FILTER_KEY
          = some (Val.vList
              (l ++ (cols.filter (fun c => truthyAt ps c)).map (entryAt ps)))
      ∧ (∀ c ∈ cols, truthyAt ps c = true →
          dget (applyFilters cols ps) c = Option.none)
      ∧ (∀ c ∈ cols, truthyAt ps c = false →
          dget (applyFilters cols ps) c = dget ps c)
      ∧ (∀ k, k ∉ cols → k ≠ FILTER_KEY →
          dget (applyFilters cols ps) k = dget ps k) := by
  induction cols with
  | nil =>
      intro ps l _ _ hl
      refine ⟨by simpa [applyFilters] using hl, ?_, ?_, ?_⟩ <;>
        simp [applyFilters]
  | cons c cs ih =>
      intro ps l hnd hnf hl
      have hcf : c ≠ FILTER_KEY := hnf c (List.mem_cons_self c cs)
      have hndc : c ∉ cs := (List.nodup_cons.mp hnd).1
      have hnds : cs.Nodup := (List.nodup_cons.mp hnd).2
      have hnfs : ∀ x ∈ cs, x ≠ FILTER_KEY :=
        fun x hx => hnf x (List.mem_cons_of_mem c hx)
      have happ : applyFilters (c :: cs) ps = applyFilters cs (filterStep ps c) :=
        rfl
      by_cases ht : truthyAt ps c = true
      · obtain ⟨v, hv, hvt⟩ : ∃ v, dget ps c = some v ∧ v.truthy = true := by
          unfold truthyAt at ht
          cases hdg : dget ps c with
          | none => rw [hdg] at ht; cases ht
          | some w =>
              refine ⟨w, rfl, ?_⟩
              rw [hdg] at ht
              exact ht
        have hstep : filterStep ps c = dpop (fappend ps (c ++ "=" ++ v.pyStr)) c := by
          rw [filterStep, hv]
          simp [hvt]
        have hf1 : dget (filterStep ps c) FILTER_KEY
            = some (Val.vList (l ++ [c ++ "=" ++ v.pyStr])) := by
          rw [hstep, dget_dpop_ne _ _ _ (Ne.symm hcf)]
          exact dget_fappend_self ps _ l hl
        have hf2 : dget (filterStep ps c) c = Option.none := by
          rw [hstep]
          exact dget_dpop_self _ c
        have hf3 : ∀ k, k ≠ c → k ≠ FILTER_KEY →
            dget (filterStep ps c) k = dget ps k := by
          intro k h1 h2
          rw [hstep, dget_dpop_ne _ _ _ h1, dget_fappend_ne _ _ _ h2]
        have htr : ∀ x ∈ cs, truthyAt (filterStep ps c) x = truthyAt ps x := by
          intro x hx
          have hxc : x ≠ c := fun hh => hndc (hh ▸ hx)
          unfold truthyAt
          rw [hf3 x hxc (hnfs x hx)]
        have hen : ∀ x ∈ cs, entryAt (filterStep ps c) x = entryAt ps x := by
          intro x hx
          have hxc : x ≠ c := fun hh => hndc (hh ▸ hx)
          unfold entryAt
          rw [hf3 x hxc (hnfs x hx)]
        obtain ⟨iha, ihb, ihc, ihd⟩ :=
          ih (filterStep ps c) (l ++ [c ++ "=" ++ v.pyStr]) hnds hnfs hf1
        refine ⟨?_, ?_, ?_, ?_⟩
        · rw [happ, iha]
          have hfc : cs.filter (fun x => truthyAt (filterStep ps c) x)
              = cs.filter (fun x => truthyAt ps x) :=
            List.filter_congr htr
          have hmc : (cs.filter (fun x => truthyAt ps x)).map
                (entryAt (filterStep ps c))
              = (cs.filter (fun x => truthyAt ps x)).map (entryAt ps) :=
            List.map_congr_left
              (fun x hx => hen x (List.mem_filter.mp hx).1)
          have hflt : List.filter (fun x => truthyAt ps x) (c :: cs)
              = c :: List.filter (fun x => truthyAt ps x) cs := by
            simp [List.filter_cons, ht]
          have hec : entryAt ps c = c ++ "=" ++ v.pyStr := by
            unfold entryAt
            rw [hv]
          rw [hfc, hmc, hflt, List.map_cons, hec, List.append_assoc,
            List.singleton_append]
        · intro x hx hxt
          rcases List.mem_cons.mp hx with hx | hx
          · subst hx
            rw [happ, ihd x hndc hcf]
            exact hf2
          · rw [happ]
            refine ihb x hx ?_
            rw [htr x hx]
            exact hxt
        · intro x hx hxf
          rcases List.mem_cons.mp hx with hx | hx
          · subst hx
            rw [hxf] at ht
            cases ht
          · rw [happ]
            have hxc : x ≠ c := fun hh => hndc (hh ▸ hx)
            have := ihc x hx (by rw [htr x hx]; exact hxf)
            rw [this]
            exact hf3 x hxc (hnfs x hx)
        · intro k hk hkF
          have hkc : k ≠ c := fun hh => hk (hh ▸ List.mem_cons_self c cs)
          have hkcs : k ∉ cs := fun hh => hk (List.mem_cons_of_mem c hh)
          rw [happ, ihd k hkcs hkF]
          exact hf3 k hkc hkF
      · have ht' : truthyAt ps c = false := by
          revert ht
          cases truthyAt ps c <;> simp
        have hstep : filterStep ps c = ps := by
          unfold truthyAt at ht'
          rw [filterStep]
          cases hdg : dget ps c with
          | none => rfl
          | some w =>
              rw [hdg] at ht'
              have ht2 : w.truthy = false := ht'
              simp [ht2]
        obtain ⟨iha, ihb, ihc, ihd⟩ := ih ps l hnds hnfs hl
        rw [happ, hstep]
        refine ⟨?_, ?_, ?_, ?_⟩
        · rw [iha]
          have hflt : List.filter (fun x => truthyAt ps x) (c :: cs)
              = List.filter (fun x => truthyAt ps x) cs := by
            simp [List.filter_cons, ht']
          rw [hflt]
        · intro x hx hxt
          rcases List.mem_cons.mp hx with hx | hx
          · subst hx
            rw [hxt] at ht'
            cases ht'
          · exact ihb x hx hxt
        · intro x hx hxf
          rcases List.mem_cons.mp hx with hx | hx
          · subst hx
            exact ihd x hndc hcf
          · exact ihc x hx hxf
        · intro k hk hkF
          exact ihd k (fun hh => hk (List.mem_cons_of_mem c hh)) hkF

theorem applyUpdates_absent (updatable : List String) (vals : String → Val)
    (upd : List (String × Val)) (k : String)
    (hv : dgetLast upd k = Option.none) :
    applyUpdates updatable vals upd k = vals k := by
  induction upd using List.reverseRecOn generalizing vals with
  | nil => rfl
  | append_singleton l p ih =>
      have hp : p.1 ≠ k := by
        intro he
        simp [dgetLast, List.reverse_append, dget, he] at hv
      have hv' : dgetLast l k = Option.none := by
        simpa [dgetLast, List.reverse_append, dget, hp] using hv
      rw [applyUpdates_append]
      by_cases hup : p.1 ∈ updatable
      · simpa [applyUpdates, hup, Ne.symm hp] using ih vals hv'
      · simpa [applyUpdates, hup] using ih vals hv'

/-
The claims.
-/

/-- Claim C1: a committed (non-dry-run) `update_job` mutates only fields
tagged IS_UPDATABLE for the job's variant — a key of the update dict naming a
field that is not updatable is silently ignored and that field keeps its
value; a key naming an updatable field has its value applied; fields named by
no key are untouched. -/
theorem C1_update_only_updatable (job : JobModel) (upd : List (String × Val)) :
    (∀ k, k ∉ get_updatable_attrs job →
        (update_job false job upd).vals k = job.vals k)
    ∧ (∀ k v, k ∈ get_updatable_attrs job → dgetLast upd k = some v →
        (update_job false job upd).vals k = v)
    ∧ (∀ k, dgetLast upd k = Option.none →
        (update_job false job upd).vals k = job.vals k) := by
  refine ⟨?_, ?_, ?_⟩
  · intro k hk
    by_cases hupd : upd = []
    · simp [update_job, hupd]
    · simp only [update_job, if_neg (by decide : ¬ (false = true)), if_neg hupd]
      exact applyUpdates_skip _ _ _ _ hk
  · intro k v hk hv
    have hupd : upd ≠ [] := by
      intro h
      rw [h] at hv
      simp [dgetLast, dget] at hv
    simp only [update_job, if_neg (by decide : ¬ (false = true)), if_neg hupd]
    exact applyUpdates_apply _ _ _ _ _ hk hv
  · intro k hv
    by_cases hupd : upd = []
    · simp [update_job, hupd]
    · simp only [update_job, if_neg (by decide : ¬ (false = true)), if_neg hupd]
      exact applyUpdates_absent _ _ _ _ hv

/-- Claim C1 witness: on a concrete ESTGenerateFamiliesJob, an update dict
carrying a non-updatable key (`uuid`) and an updatable key (`status`) leaves
`uuid` unchanged and applies `status`. -/
theorem C1_update_only_updatable_witness :
    (update_job false (estFamiliesJob 3 (oneVal "uuid" (Val.vStr "u")))
        [("status", Val.vStatus sFINISHED), ("uuid", Val.vStr "corrupt")]).vals
        "uuid" = Val.vStr "u"
    ∧ (update_job false (estFamiliesJob 3 (oneVal "uuid" (Val.vStr "u")))
        [("status", Val.vStatus sFINISHED), ("uuid", Val.vStr "corrupt")]).vals
        "status" = Val.vStatus sFINISHED := by
  constructor
  · have h := (C1_update_only_updatable
      (estFamiliesJob 3 (oneVal "uuid" (Val.vStr "u")))
      [("status", Val.vStatus sFINISHED), ("uuid", Val.vStr "corrupt")]).1
      "uuid" (by decide)
    rw [h]
    decide
  · exact (C1_update_only_updatable
      (estFamiliesJob 3 (oneVal "uuid" (Val.vStr "u")))
      [("status", Val.vStatus sFINISHED), ("uuid", Val.vStr "corrupt")]).2.1
      "status" (Val.vStatus sFINISHED) (by decide) (by decide)

/-- Claim C7: in dry-run mode `update_job` performs no write — the stored
record is unchanged (the very same value map), nothing is committed, and the
would-be update is logged instead. -/
theorem C7_dry_run_no_write (job : JobModel) (upd : List (String × Val)) :
    (update_job true job upd).vals = job.vals
    ∧ (update_job true job upd).committed = false
    ∧ (update_job true job upd).loggedDryRun = true :=
  ⟨rfl, rfl, rfl⟩

/-- Claim C2 (amended): `process_new_job` is fail-fast — when a required
input file (a truthy, i.e. non-null and non-empty, `jobFilename` on a
FilenameParameters variant) is absent from the input directory the result is
exactly the FAILED update with no connector call; when the input check passes
and environment preparation returns a falsy (failure) reference the result is
the FAILED update with only `prepare` invoked; when preparation and
submission both succeed (truthy reference, nonzero id `i`) the result is
exactly the RUNNING update carrying `i` and the start time. -/
theorem C2_new_job_fail_fast (fs : List String) (prep : Option String)
    (subm : Option Int) (now : Nat) (job : JobModel) :
    (∀ s, job.hasFilename = true → job.vals "jobFilename" = Val.vStr s →
        s ≠ "" → fs.contains s = false →
        process_new_job fs prep subm now job
          = ([(STATUS_KEY, Val.vStatus sFAILED)], []))
    ∧ ((needsInputFile job = true →
          fs.contains (job.vals "jobFilename").pyStr = true) →
        prepTruthy prep = false →
        process_new_job fs prep subm now job
          = ([(STATUS_KEY, Val.vStatus sFAILED)], [ConnOp.prepare]))
    ∧ (∀ i, (needsInputFile job = true →
          fs.contains (job.vals "jobFilename").pyStr = true) →
        prepTruthy prep = true → subm = some i → i ≠ 0 →
        process_new_job fs prep subm now job
          = ([(STATUS_KEY, Val.vStatus sRUNNING), (JOBID_KEY, Val.vInt i),
              (TIME_STARTED_KEY, Val.vTime now)],
             [ConnOp.prepare, ConnOp.submit])) := by
  refine ⟨?_, ?_, ?_⟩
  · intro s hhf hval hs hfs
    have hneed : needsInputFile job = true := by
      simp [needsInputFile, hhf, hval, Val.truthy, hs]
    have hnc : ¬ fs.contains (job.vals "jobFilename").pyStr = true := by
      rw [hval]
      intro hc
      rw [show (Val.vStr s).pyStr = s from rfl, hfs] at hc
      cases hc
    rw [process_new_job, if_pos ⟨hneed, hnc⟩]
  · intro hin hpf
    have hcond : ¬ (needsInputFile job = true
        ∧ ¬ fs.contains (job.vals "jobFilename").pyStr = true) := by
      rintro ⟨h1, h2⟩
      exact h2 (hin h1)
    rw [process_new_job, if_neg hcond, if_pos (by simp [hpf])]
  · intro i hin hpt hsub hi
    have hcond : ¬ (needsInputFile job = true
        ∧ ¬ fs.contains (job.vals "jobFilename").pyStr = true) := by
      rintro ⟨h1, h2⟩
      exact h2 (hin h1)
    subst hsub
    have hst : submTruthy (some i) = true := by
      simp [submTruthy, hi]
    rw [process_new_job, if_neg hcond, if_neg (by simp [hpt]),
      if_pos (by simp [hst])]
    rfl

/-- Claim C2 counterexample: the claim as stated is false. First, a
FilenameParameters job whose `jobFilename` is the non-null empty string, with
that file absent from an empty input directory, is not failed: the connector
is invoked and the job is submitted (the code tests truthiness, not
non-nullness, of `jobFilename`). Second, a connector whose `prepare` and
`submit` both return non-failure values (`"/p"` and id `0`) still yields
FAILED, because `submit`'s result is tested for truthiness. -/
theorem C2_counterexample :
    (JobModel.mk 7 jobBaseCols (oneVal "jobFilename" (Val.vStr ""))
        PipelineT.taxonomy false ImportModeT.fasta true).vals "jobFilename"
        ≠ Val.null
    ∧ ([] : List String).contains "" = false
    ∧ process_new_job [] (some "/jobs/7/params.json") (some 4242) 0
        (JobModel.mk 7 jobBaseCols (oneVal "jobFilename" (Val.vStr ""))
          PipelineT.taxonomy false ImportModeT.fasta true)
        = ([(STATUS_KEY, Val.vStatus sRUNNING), (JOBID_KEY, Val.vInt 4242),
            (TIME_STARTED_KEY, Val.vTime 0)],
           [ConnOp.prepare, ConnOp.submit])
    ∧ process_new_job [] (some "/jobs/7/params.json") (some 0) 0
        (JobModel.mk 8 jobBaseCols (fun _ => Val.null)
          PipelineT.taxonomy false ImportModeT.fasta false)
        = ([(STATUS_KEY, Val.vStatus sFAILED)],
           [ConnOp.prepare, ConnOp.submit]) := by
  refine ⟨by decide, by decide, by decide, by decide⟩

/-- Claim C2 witness: the three amended branches at concrete inputs — the
spec's missing-input scenario (job 7, `x.fa` absent), a failed preparation,
and the spec's happy-path scenario (job 8, id 4242). -/
theorem C2_new_job_fail_fast_witness :
    process_new_job [] (some "/jobs/7/params.json") (some 4242) 0
        (JobModel.mk 7 jobBaseCols (oneVal "jobFilename" (Val.vStr "x.fa"))
          PipelineT.taxonomy false ImportModeT.fasta true)
        = ([(STATUS_KEY, Val.vStatus sFAILED)], [])
    ∧ process_new_job [] Option.none (some 4242) 0
        (JobModel.mk 8 jobBaseCols (fun _ => Val.null)
          PipelineT.taxonomy false ImportModeT.fasta false)
        = ([(STATUS_KEY, Val.vStatus sFAILED)], [ConnOp.prepare])
    ∧ process_new_job [] (some "/jobs/8/params.json") (some 4242) 99
        (JobModel.mk 8 jobBaseCols (fun _ => Val.null)
          PipelineT.taxonomy false ImportModeT.fasta false)
        = ([(STATUS_KEY, Val.vStatus sRUNNING), (JOBID_KEY, Val.vInt 4242),
            (TIME_STARTED_KEY, Val.vTime 99)],
           [ConnOp.prepare, ConnOp.submit]) := by
  refine ⟨?_, ?_, ?_⟩
  · exact (C2_new_job_fail_fast [] (some "/jobs/7/params.json") (some 4242) 0
      (JobModel.mk 7 jobBaseCols (oneVal "jobFilename" (Val.vStr "x.fa"))
        PipelineT.taxonomy false ImportModeT.fasta true)).1
      "x.fa" rfl (by decide) (by decide) (by decide)
  · exact (C2_new_job_fail_fast [] Option.none (some 4242) 0
      (JobModel.mk 8 jobBaseCols (fun _ => Val.null)
        PipelineT.taxonomy false ImportModeT.fasta false)).2.1
      (by decide) (by decide)
  · exact (C2_new_job_fail_fast [] (some "/jobs/8/params.json") (some 4242) 99
      (JobModel.mk 8 jobBaseCols (fun _ => Val.null)
        PipelineT.taxonomy false ImportModeT.fasta false)).2.2
      4242 (by decide) (by decide) rfl (by decide)

/-- Claim C3: `process_running_job` returns the empty update map when the
connector polls RUNNING; the FAILED-plus-completion-time map when it polls
FAILED; on FINISHED — after invoking `retrieve` and the parser — the map
built from the FINISHED status default, the parsed results merged over it,
and the completion time set last; and the empty map (no update, no failure)
on UNKNOWN or any other value. -/
theorem C3_advance_running (stats : Option (List (String × Val))) (now : Nat)
    (job : JobModel) (poll : Nat) :
    (poll = sRUNNING →
      process_running_job poll stats now job = ([], [ConnOp.poll]))
    ∧ (poll = sFAILED →
      process_running_job poll stats now job
        = ([(STATUS_KEY, Val.vStatus sFAILED),
            (TIME_COMPLETED_KEY, Val.vTime now)], [ConnOp.poll]))
    ∧ (poll = sFINISHED →
      process_running_job poll stats now job
        = (dset
            (dupdate [(STATUS_KEY, Val.vStatus sFINISHED)]
              (parse_results job stats))
            TIME_COMPLETED_KEY (Val.vTime now),
           [ConnOp.poll, ConnOp.retrieve]))
    ∧ (poll ≠ sRUNNING → poll ≠ sFAILED → poll ≠ sFINISHED →
      process_running_job poll stats now job = ([], [ConnOp.poll])) := by
  refine ⟨?_, ?_, ?_, ?_⟩
  · intro h
    subst h
    rfl
  · intro h
    subst h
    rfl
  · intro h
    subst h
    rfl
  · intro h1 h2 h3
    simp [process_running_job, h1, h2, h3]

/-- Claim C3 witness: the four branches at concrete inputs, including the
spec's completion scenario (poll FINISHED with parsed `numMatchedIds`) and an
UNKNOWN poll. -/
theorem C3_advance_running_witness :
    process_running_job sRUNNING Option.none 5
        (estFamiliesJob 9 (fun _ => Val.null)) = ([], [ConnOp.poll])
    ∧ process_running_job sFAILED Option.none 5
        (estFamiliesJob 9 (fun _ => Val.null))
        = ([(STATUS_KEY, Val.vStatus sFAILED),
            (TIME_COMPLETED_KEY, Val.vTime 5)], [ConnOp.poll])
    ∧ process_running_job sFINISHED (some [("num_matched", Val.vInt 10)]) 5
        (estFamiliesJob 9 (fun _ => Val.null))
        = (dset
            (dupdate [(STATUS_KEY, Val.vStatus sFINISHED)]
              (parse_results (estFamiliesJob 9 (fun _ => Val.null))
                (some [("num_matched", Val.vInt 10)])))
            TIME_COMPLETED_KEY (Val.vTime 5),
           [ConnOp.poll, ConnOp.retrieve])
    ∧ process_running_job sUNKNOWN Option.none 5
        (estFamiliesJob 9 (fun _ => Val.null)) = ([], [ConnOp.poll]) := by
  refine ⟨?_, ?_, ?_, ?_⟩
  · exact (C3_advance_running Option.none 5
      (estFamiliesJob 9 (fun _ => Val.null)) sRUNNING).1 rfl
  · exact (C3_advance_running Option.none 5
      (estFamiliesJob 9 (fun _ => Val.null)) sFAILED).2.1 rfl
  · exact (C3_advance_running (some [("num_matched", Val.vInt 10)]) 5
      (estFamiliesJob 9 (fun _ => Val.null)) sFINISHED).2.2.1 rfl
  · exact (C3_advance_running Option.none 5
      (estFamiliesJob 9 (fun _ => Val.null)) sUNKNOWN).2.2.2
      (by decide) (by decide) (by decide)

/-- The parameter dict just after `params[FILTER_KEY] = []`, i.e. the state
the filter loop starts from (and reads column values from). -/
def filterInitParams (j : JobModel) : List (String × Val) :=
  dset (base_parameter_dict j) FILTER_KEY (Val.vList [])

/-- Claim C4 (amended): for an EST-pipeline job, the built parameter dict
holds under `filter` the list of `"field=value"` strings for exactly those
IS_FILTER-tagged fields whose parameter value is truthy (present, non-null
and non-falsy), and each such field's own key is removed afterwards; filter
fields whose value is not truthy contribute no entry and keep their key and
value. -/
theorem C4_est_filter_folding (job : JobModel)
    (hest : job.pipeline = PipelineT.est)
    (hnd : (get_filter_parameters job).Nodup)
    (hnf : FILTER_KEY ∉ get_filter_parameters job) :
    dget (create_parameter_dict job) FILTER_KEY
        = some (Val.vList
            (((get_filter_parameters job).filter
                (fun c => truthyAt (filterInitParams job) c)).map
              (entryAt (filterInitParams job))))
    ∧ (∀ c ∈ get_filter_parameters job,
        truthyAt (filterInitParams job) c = true →
        dget (create_parameter_dict job) c = Option.none)
    ∧ (∀ c ∈ get_filter_parameters job,
        truthyAt (filterInitParams job) c = false →
        dget (create_parameter_dict job) c = dget (filterInitParams job) c) := by
  have hnf' : ∀ c ∈ get_filter_parameters job, c ≠ FILTER_KEY :=
    fun c hc he => hnf (he ▸ hc)
  have hl : dget (filterInitParams job) FILTER_KEY = some (Val.vList []) :=
    dget_dset_self _ _ _
  have hcd : create_parameter_dict job
      = applyFilters (get_filter_parameters job) (filterInitParams job) := by
    rw [create_parameter_dict, if_pos hest]
    rfl
  obtain ⟨ha, hb, hc, _⟩ :=
    applyFilters_spec (get_filter_parameters job) (filterInitParams job) []
      hnd hnf' hl
  rw [hcd]
  refine ⟨?_, hb, hc⟩
  rw [ha, List.nil_append]

/-- Claim C4 counterexample: the claim as stated (non-null filter values are
folded and their keys removed) is false — on an ESTGenerateFamiliesJob whose
IS_FILTER field `fraction` holds the non-null value `0`, the built parameter
dict still maps `fraction` to `0` (the key was not removed) and the `filter`
list is empty (no `"fraction=0"` entry), because the code tests truthiness,
not non-nullness. -/
theorem C4_counterexample :
    (estFamiliesJob 12 (oneVal "fraction" (Val.vInt 0))).vals "fraction"
        ≠ Val.null
    ∧ "fraction" ∈
        get_filter_parameters (estFamiliesJob 12 (oneVal "fraction" (Val.vInt 0)))
    ∧ (estFamiliesJob 12 (oneVal "fraction" (Val.vInt 0))).pipeline
        = PipelineT.est
    ∧ dget (create_parameter_dict
          (estFamiliesJob 12 (oneVal "fraction" (Val.vInt 0)))) "fraction"
        = some (Val.vInt 0)
    ∧ dget (create_parameter_dict
          (estFamiliesJob 12 (oneVal "fraction" (Val.vInt 0)))) FILTER_KEY
        = some (Val.vList []) := by
  refine ⟨by decide, by decide, rfl, by decide, by decide⟩

/-- Claim C4 witness: on an ESTGenerateFamiliesJob whose only truthy filter
field is `excludeFragments = True`, the parameter dict's `filter` list is
exactly `["excludeFragments=True"]` and the `excludeFragments` key is gone. -/
theorem C4_est_filter_folding_witness :
    dget (create_parameter_dict
        (estFamiliesJob 11 (oneVal "excludeFragments" (Val.vBool true))))
        FILTER_KEY
      = some (Val.vList ["excludeFragments=True"])
    ∧ dget (create_parameter_dict
        (estFamiliesJob 11 (oneVal "excludeFragments" (Val.vBool true))))
        "excludeFragments"
      = Option.none := by
  have h := C4_est_filter_folding
    (estFamiliesJob 11 (oneVal "excludeFragments" (Val.vBool true)))
    rfl (by decide) (by decide)
  constructor
  · rw [h.1]
    decide
  · exact h.2.1 "excludeFragments" (by decide) (by decide)

/-- A job whose result-key mapping is exactly
`num_matched ↦ numMatchedIds` — the single
`UserUploadedIdsParameters.numMatchedIds` column of app/models.py. -/
def resultMapExampleJob : JobModel :=
  JobModel.mk 5 [colUR "numMatchedIds" "num_matched"] (fun _ => Val.null)
    PipelineT.est false ImportModeT.fasta false

/-- Claim C5: for every job and every result-file content, the parser returns
the dict obtained by renaming each key through the job's result-key mapping
when a mapping exists and passing it through unchanged otherwise, values
untouched; in particular a file with keys `num_matched` and `unmapped_key`
under the mapping `num_matched ↦ numMatchedIds` parses to
`numMatchedIds`/`unmapped_key`. -/
theorem C5_parser_key_mapping :
    (∀ (job : JobModel) (content : List (String × Val)),
      parse_results job (some content)
        = dupdate []
            (content.map (fun p =>
              ((dget (get_result_key_mapping job) p.1).getD p.1, p.2))))
    ∧ parse_results resultMapExampleJob
        (some [("num_matched", Val.vInt 5), ("unmapped_key", Val.vInt 1)])
        = [("numMatchedIds", Val.vInt 5), ("unmapped_key", Val.vInt 1)] := by
  constructor
  · intro job content
    simp [parse_results, parse_stats_json, dupdate, List.foldl_map]
  · decide

/-- Claim C6: for every status flag set, `fetch_jobs` returns (as a
reordering-free multiset) exactly the stored rows whose primitive status is a
member of the requested flag set, and the returned sequence is ordered by
ascending job id. -/
theorem C6_fetch_filter_ordered (db : List JobRow) (s : Nat)
    (hprim : ∀ r ∈ db, r.status ∈ primFlags) :
    (fetch_jobs db s).Pairwise (fun a b => a.id ≤ b.id)
    ∧ List.Perm (fetch_jobs db s)
        (db.filter (fun r => memFlag r.status s)) := by
  constructor
  · exact sorted_sortById _
  · have hfeq : db.filter
        (fun r => (statusStrings s).contains (statusName r.status))
        = db.filter (fun r => memFlag r.status s) :=
      List.filter_congr (fun r hr => contains_statusStrings _ s (hprim r hr))
    rw [fetch_jobs, hfeq]
    exact sortById_perm _

/-- Claim C6 witness: an out-of-order table of primitive-status rows queried
with the INCOMPLETE flag set. -/
theorem C6_fetch_filter_ordered_witness :
    (fetch_jobs
        [JobRow.mk 5 sFINISHED, JobRow.mk 2 sNEW, JobRow.mk 9 sRUNNING,
         JobRow.mk 1 sCANCELLED] sINCOMPLETE).Pairwise
        (fun a b => a.id ≤ b.id)
    ∧ List.Perm
        (fetch_jobs
          [JobRow.mk 5 sFINISHED, JobRow.mk 2 sNEW, JobRow.mk 9 sRUNNING,
           JobRow.mk 1 sCANCELLED] sINCOMPLETE)
        (List.filter (fun r => memFlag r.status sINCOMPLETE)
          [JobRow.mk 5 sFINISHED, JobRow.mk 2 sNEW, JobRow.mk 9 sRUNNING,
           JobRow.mk 1 sCANCELLED]) :=
  C6_fetch_filter_ordered
    [JobRow.mk 5 sFINISHED, JobRow.mk 2 sNEW, JobRow.mk 9 sRUNNING,
     JobRow.mk 1 sCANCELLED] sINCOMPLETE (by decide)

/-- Claim C9: the named union `Status.ALL` equals
NEW|RUNNING|FINISHED|FAILED|ARCHIVED and contains neither CANCELLED nor
UNKNOWN (though CANCELLED is in COMPLETED), so `fetch_jobs` under ALL never
returns a row stored with status CANCELLED. -/
theorem C9_all_excludes_cancelled :
    sALL = Nat.lor sNEW
        (Nat.lor sRUNNING (Nat.lor sFINISHED (Nat.lor sFAILED sARCHIVED)))
    ∧ memFlag sCANCELLED sALL = false
    ∧ memFlag sUNKNOWN sALL = false
    ∧ memFlag sCANCELLED sCOMPLETED = true
    ∧ (∀ (db : List JobRow) (r : JobRow),
        r ∈ fetch_jobs db sALL → r.status ≠ sCANCELLED) := by
  refine ⟨by decide, by decide, by decide, by decide, ?_⟩
  intro db r hr hc
  rw [fetch_jobs] at hr
  have hr' : r ∈ db.filter
      (fun r => (statusStrings sALL).contains (statusName r.status)) :=
    (sortById_perm _).mem_iff.mp hr
  have hcont := (List.mem_filter.mp hr').2
  rw [hc] at hcont
  exact absurd hcont (by decide)

/-- Claim C9 witness: a NEW row fetched under ALL is not CANCELLED. -/
theorem C9_all_excludes_cancelled_witness :
    (JobRow.mk 1 sNEW).status ≠ sCANCELLED :=
  C9_all_excludes_cancelled.2.2.2.2 [JobRow.mk 1 sNEW] (JobRow.mk 1 sNEW)
    (by decide)

/-- Claim C10: on any variant extending the base Job columns (with no extra
updatable column whose result key collides with the base time/status keys),
the result-key mapping sends `status`, `timeStarted` and `timeCompleted` to
themselves; hence on a FINISHED poll a result file carrying a `status` key
replaces the FINISHED default in the returned update map (parsed results are
merged after the status default), while a parser-supplied `timeCompleted`
never survives because the engine sets its own timestamp after the merge. -/
theorem C10_status_passthrough (job : JobModel) (rest : List ColInfo)
    (hcols : job.cols = jobBaseCols ++ rest)
    (hrest : ∀ c ∈ rest, c.isUpdatable = true →
      c.resultKey.getD c.name
        ∉ (["status", "timeStarted", "timeCompleted"] : List String)) :
    dget (get_result_key_mapping job) "status" = some "status"
    ∧ dget (get_result_key_mapping job) "timeStarted" = some "timeStarted"
    ∧ dget (get_result_key_mapping job) "timeCompleted" = some "timeCompleted"
    ∧ (∀ (v : Val) (now : Nat),
        dget (process_running_job sFINISHED (some [("status", v)]) now job).1
          STATUS_KEY = some v)
    ∧ (∀ (stats : Option (List (String × Val))) (now : Nat),
        dget (process_running_job sFINISHED stats now job).1
          TIME_COMPLETED_KEY = some (Val.vTime now)) := by
  have hmap : get_result_key_mapping job
      = resultMapFold (resultMapFold [] jobBaseCols) rest := by
    rw [get_result_key_mapping, hcols, resultMapFold_append]
  have hr1 : ∀ c ∈ rest, c.isUpdatable = true →
      c.resultKey.getD c.name ≠ "status" :=
    fun c hc hu he => hrest c hc hu (by rw [he]; decide)
  have hr2 : ∀ c ∈ rest, c.isUpdatable = true →
      c.resultKey.getD c.name ≠ "timeStarted" :=
    fun c hc hu he => hrest c hc hu (by rw [he]; decide)
  have hr3 : ∀ c ∈ rest, c.isUpdatable = true →
      c.resultKey.getD c.name ≠ "timeCompleted" :=
    fun c hc hu he => hrest c hc hu (by rw [he]; decide)
  have h1 : dget (get_result_key_mapping job) "status" = some "status" := by
    rw [hmap, resultMapFold_preserve rest _ "status" hr1]
    decide
  have h2 : dget (get_result_key_mapping job) "timeStarted"
      = some "timeStarted" := by
    rw [hmap, resultMapFold_preserve rest _ "timeStarted" hr2]
    decide
  have h3 : dget (get_result_key_mapping job) "timeCompleted"
      = some "timeCompleted" := by
    rw [hmap, resultMapFold_preserve rest _ "timeCompleted" hr3]
    decide
  refine ⟨h1, h2, h3, ?_, ?_⟩
  · intro v now
    have hpr : parse_results job (some [("status", v)]) = [("status", v)] := by
      rw [parse_results, parse_stats_json]
      simp only [List.foldl_cons, List.foldl_nil, h1]
      rfl
    show dget
      (dset (dupdate (dset [] STATUS_KEY (Val.vStatus sFINISHED))
          (parse_results job (some [("status", v)])))
        TIME_COMPLETED_KEY (Val.vTime now)) STATUS_KEY = some v
    rw [hpr, dget_dset_ne _ _ _ _ (by decide)]
    exact dget_dset_self _ _ _
  · intro stats now
    show dget
      (dset (dupdate (dset [] STATUS_KEY (Val.vStatus sFINISHED))
          (parse_results job stats))
        TIME_COMPLETED_KEY (Val.vTime now)) TIME_COMPLETED_KEY
      = some (Val.vTime now)
    exact dget_dset_self _ _ _

/-- Claim C10 witness: on a concrete ESTGenerateFamiliesJob, the mapping
fixes `status`, and a FINISHED poll whose stats file says `status: failed`
yields an update map whose `status` is the file's value, with the engine's
own `timeCompleted`. -/
theorem C10_status_passthrough_witness :
    dget (get_result_key_mapping (estFamiliesJob 9 (fun _ => Val.null)))
        "status" = some "status"
    ∧ dget (process_running_job sFINISHED
          (some [("status", Val.vStatus sFAILED)]) 7
          (estFamiliesJob 9 (fun _ => Val.null))).1 STATUS_KEY
        = some (Val.vStatus sFAILED)
    ∧ dget (process_running_job sFINISHED
          (some [("status", Val.vStatus sFAILED), ("timeCompleted", Val.vTime 1)]) 7
          (estFamiliesJob 9 (fun _ => Val.null))).1 TIME_COMPLETED_KEY
        = some (Val.vTime 7) := by
  have h := C10_status_passthrough (estFamiliesJob 9 (fun _ => Val.null))
    estExtraCols rfl (by decide)
  exact ⟨h.1, h.2.2.2.1 (Val.vStatus sFAILED) 7,
    h.2.2.2.2 (some [("status", Val.vStatus sFAILED),
      ("timeCompleted", Val.vTime 1)]) 7⟩
